import Mathlib

/-!
Shallow embedding of the yt-mood analysis pipeline.

Numbers that are JavaScript `number` values are modelled as `ℚ` (exact
arithmetic); durations and indices that the source treats as integers are
modelled as `ℕ`/`ℤ`.  Fallible operations are modelled with `Except`.
Sources:
  - backend/src/aggregation (AggregationService, src/unnamed/part_001)
  - backend/src/analyze/analyze.service.ts (AnalyzeService)
  - backend/src/video/video.service.ts (VideoService)
  - backend/src/cache/cache.service.ts (CacheService)
  - backend/src/common/utils/youtube.util.ts (YoutubeUtil, src/unnamed/part_005)
  - backend/src/queue/processors/chunk.processor.ts (ChunkProcessor)
-/

set_option autoImplicit false

namespace YtMood

/-- Embeds `MoodAnalysisResult` from mood.service.ts. -/
structure MoodAnalysisResult where
  primary_mood : String
  secondary_moods : List String
  intensity : ℚ
  confidence : ℚ
  facial_cues : String
  body_language : String
  voice_tone : String
  notes : String
  deriving DecidableEq

/-- Convenience constructor used by concrete test inputs: only the fields the
aggregation code reads (`primary_mood`, `confidence`) vary. -/
def mkMood (m : String) (c : ℚ) : MoodAnalysisResult :=
  ⟨m, [], 0, c, "", "", "", ""⟩

/-- Embeds `ChunkJobResult` from chunk.processor.ts. -/
structure ChunkJobResult where
  chunkIndex : ℕ
  startTime : ℚ
  endTime : ℚ
  moodResult : MoodAnalysisResult
  frameImage : Option String
  deriving DecidableEq

/-- Embeds `MoodTimelineEntry` from aggregation.service.ts.  The source field
named `end` is rendered as `stop` (`end` is a Lean keyword). -/
structure MoodTimelineEntry where
  start : ℚ
  stop : ℚ
  mood : String
  confidence : ℚ
  frameImage : Option String
  deriving DecidableEq

/-- Embeds `AggregatedResult` from aggregation.service.ts. -/
structure AggregatedResult where
  overall_mood : String
  mood_timeline : List MoodTimelineEntry
  emotional_variability : ℚ
  deriving DecidableEq

/-! ### AggregationService -/

/-- One step of `moodScores[mood] = (moodScores[mood] || 0) + confidence`:
a JavaScript object with string keys keeps first-insertion order, updating the
value in place, so it is modelled as an insertion-ordered association list. -/
def addScore : List (String × ℚ) → String → ℚ → List (String × ℚ)
  | [], mood, c => [(mood, c)]
  | (m, s) :: rest, mood, c =>
    if m = mood then (m, s + c) :: rest else (m, s) :: addScore rest mood c

/-- The `moodScores` accumulation loop of
`AggregationService.calculateOverallMood`. -/
def moodScores (chunkResults : List ChunkJobResult) : List (String × ℚ) :=
  chunkResults.foldl
    (fun acc chunk => addScore acc chunk.moodResult.primary_mood chunk.moodResult.confidence) []

/-- The `score > maxScore` selection step of
`AggregationService.calculateOverallMood`. -/
def pickMax (best p : String × ℚ) : String × ℚ :=
  if best.2 < p.2 then p else best

/-- Embeds `AggregationService.calculateOverallMood`: iterate over the score
entries starting from `maxScore = 0`, `overallMood = 'neutral'`, replacing the
current best only on a strictly greater score. -/
def calculateOverallMood (chunkResults : List ChunkJobResult) : String :=
  ((moodScores chunkResults).foldl pickMax ("neutral", 0)).1

/-- The transition-counting loop of
`AggregationService.calculateEmotionalVariability`
(`for i = 1; i < length; i++` comparing `primary_mood` of adjacent entries). -/
def countTransitions : List ChunkJobResult → ℕ
  | a :: b :: t =>
    (if a.moodResult.primary_mood = b.moodResult.primary_mood then 0 else 1) +
      countTransitions (b :: t)
  | _ => 0

/-- Embeds `AggregationService.calculateEmotionalVariability`. -/
def calculateEmotionalVariability (chunkResults : List ChunkJobResult) : ℚ :=
  if chunkResults.length ≤ 1 then 0
  else (countTransitions chunkResults : ℚ) / ((chunkResults.length : ℚ) - 1)

/-- The timeline-entry construction inside `AggregationService.aggregateResults`
(the `frameImage` field is attached only when present and non-empty, matching
the JavaScript truthiness check). -/
def toTimelineEntry (chunk : ChunkJobResult) : MoodTimelineEntry :=
  { start := chunk.startTime
    stop := chunk.endTime
    mood := chunk.moodResult.primary_mood
    confidence := chunk.moodResult.confidence
    frameImage :=
      match chunk.frameImage with
      | some s => if 0 < s.length then some s else none
      | none => none }

/-- Embeds `AggregationService.aggregateResults`. -/
def aggregateResults (chunkResults : List ChunkJobResult) : AggregatedResult :=
  { overall_mood := calculateOverallMood chunkResults
    mood_timeline := chunkResults.map toTimelineEntry
    emotional_variability := calculateEmotionalVariability chunkResults }

/-! ### Errors

The implementation throws plain `Error`/`HttpException` objects; the spec's
error taxonomy names them abstractly.  Constructors map one-to-one to the
throw sites: `invalidUrl` is `InvalidYouTubeUrlException` / the
`'Invalid YouTube URL'` throw, `acquisition` covers info-fetch, duration and
download failures, `integrityError` is the pair of zero-surviving-chunk throws
in `VideoService.downloadAndChunk` (`'Failed to extract any chunks...'` /
`'No valid chunks were extracted...'`), `chunkVerification` is the
`'Chunk i files are missing'` / `'Chunk i has empty files'` throws in
`AnalyzeService.analyzeVideo`, `jobFailed` a failed awaited job, `cacheError`
an error escaping the cache layer. -/
inductive Err where
  | invalidUrl : String → Err
  | acquisition : String → Err
  | integrityError : String → Err
  | chunkVerification : ℕ → Err
  | jobFailed : String → Err
  | cacheError : String → Err
  deriving DecidableEq

/-! ### YoutubeUtil and VideoService -/

/-- Embeds `YoutubeUtil.calculateChunkCount`:
`Math.ceil(durationSeconds / 15)` on an integer duration. -/
def calculateChunkCount (durationSeconds : ℕ) : ℕ :=
  (durationSeconds + 14) / 15

/-- Embeds the `VideoChunk` interface of video.service.ts. -/
structure VideoChunk where
  index : ℕ
  startTime : ℕ
  endTime : ℕ
  videoPath : String
  audioPath : String
  deriving DecidableEq

/-- The per-run temp directory (`TempFileUtil.createTempDir()`), fixed
abstractly for one run. -/
def tempDirPath : String := "tmp"

/-- Path of the downloaded source video, `path.join(tempDir, 'video.mp4')`. -/
def videoFilePath : String := tempDirPath ++ "/video.mp4"

/-- `path.dirname`: drop the final path component. -/
def dirname (p : String) : String :=
  String.intercalate "/" (p.splitOn "/").dropLast

/-- Chunk construction inside the extraction loop of
`VideoService.downloadAndChunk`: `startTime = i * 15`,
`endTime = Math.min(startTime + 15, duration)` and the two artifact paths. -/
def mkChunk (duration i : ℕ) : VideoChunk :=
  { index := i
    startTime := 15 * i
    endTime := min (15 * i + 15) duration
    videoPath := tempDirPath ++ "/chunk_" ++ toString i ++ "_video.mp4"
    audioPath := tempDirPath ++ "/chunk_" ++ toString i ++ "_audio.wav" }

/-- Abstract state of the out-of-scope acquisition collaborators for one run of
`VideoService.downloadAndChunk`: URL validity, whether `getVideoInfo`
succeeds, the parsed duration (`none` models `NaN`), whether the download
succeeds, whether extraction (plus its in-loop artifact checks) of chunk `i`
succeeds, and the final `fs.pathExists` re-verification of a chunk. -/
structure AcquisitionEnv where
  validUrl : Bool
  infoOk : Bool
  duration : Option ℤ
  downloadOk : Bool
  extractOk : ℕ → Bool
  postVerify : VideoChunk → Bool

/-- The `parseInt` + positivity check on `videoDetails.lengthSeconds`. -/
def durationOf (acq : AcquisitionEnv) : Option ℕ :=
  match acq.duration with
  | some d => if 0 < d then some d.toNat else none
  | none => none

/-- The extraction `for` loop of `downloadAndChunk`: a chunk whose extraction
or in-loop verification fails is skipped (`catch` without rethrow), the loop
continues with the next index. -/
def extractLoop (acq : AcquisitionEnv) (duration n : ℕ) : List VideoChunk :=
  (List.range n).filterMap fun i =>
    if acq.extractOk i then some (mkChunk duration i) else none

/-- The final re-verification loop of `downloadAndChunk`, which iterates
`for (const chunk of chunks)` and `splice`s failing chunks out of the array it
is iterating.  A JavaScript array iterator reads by index, so removing the
element at the current position makes the iterator skip the element after it;
the fuel argument makes the loop structurally recursive (each iteration
consumes one unit, and the iterator performs at most `length` steps). -/
def spliceVerifyGo (verify : VideoChunk → Bool) :
    ℕ → List VideoChunk → ℕ → List VideoChunk
  | 0, l, _ => l
  | fuel + 1, l, j =>
    if h : j < l.length then
      if verify (l.get ⟨j, h⟩) then spliceVerifyGo verify fuel l (j + 1)
      else spliceVerifyGo verify fuel (l.eraseIdx j) (j + 1)
    else l

/-- The splice-verification loop started at iterator position 0 with enough
fuel for every iteration the JavaScript loop can perform. -/
def spliceVerify (verify : VideoChunk → Bool) (l : List VideoChunk) : List VideoChunk :=
  spliceVerifyGo verify l.length l 0

/-- Chunks pushed by the extraction loop of `downloadAndChunk`. -/
def producedChunks (acq : AcquisitionEnv) : List VideoChunk :=
  match durationOf acq with
  | some d => extractLoop acq d (calculateChunkCount d)
  | none => []

/-- Chunks remaining after the final re-verification loop. -/
def survivingChunks (acq : AcquisitionEnv) : List VideoChunk :=
  spliceVerify acq.postVerify (producedChunks acq)

/-- Embeds `VideoService.downloadAndChunk`.  The second component records the
paths handed to `TempFileUtil.cleanup`, in order. -/
def downloadAndChunk (acq : AcquisitionEnv) : Except Err (List VideoChunk) × List String :=
  if acq.validUrl = false then (.error (.invalidUrl "Invalid YouTube URL"), [])
  else if acq.infoOk = false then (.error (.acquisition "Failed to get video info"), [])
  else
    match durationOf acq with
    | none => (.error (.acquisition "Invalid video duration. Cannot process this video."), [])
    | some d =>
      if acq.downloadOk = false then (.error (.acquisition "Failed to download video"), [])
      else
        let chunks := extractLoop acq d (calculateChunkCount d)
        if chunks.length = 0 then
          (.error (.integrityError "Failed to extract any chunks from the video."),
            [videoFilePath])
        else
          let chunks2 := spliceVerify acq.postVerify chunks
          if chunks2.length = 0 then
            (.error (.integrityError "No valid chunks were extracted."), [videoFilePath])
          else (.ok chunks2, [videoFilePath])

/-- Embeds `VideoService.cleanupChunks`: delete each chunk's video and audio
artifact, then the parent directory of the first chunk's video artifact. -/
def cleanupPaths (chunks : List VideoChunk) : List String :=
  (chunks.flatMap fun c => [c.videoPath, c.audioPath]) ++
    match chunks with
    | [] => []
    | c :: _ => [dirname c.videoPath]

/-! ### CacheService -/

/-- Abstract Redis backend behind `CacheService`: `connected` is
`this.redis !== null`, `ready` is `redis.status === 'ready'`, `store` the
key-value content, and the three `...Fails` flags make the corresponding raw
backend call throw.  Serialization is elided: values are stored as
`AggregatedResult` directly (a `JSON.parse` failure is covered by
`getFails`, since it happens inside the same `try`). -/
structure CacheBackend where
  connected : Bool
  ready : Bool
  store : String → Option AggregatedResult
  getFails : Bool
  setFails : Bool
  delFails : Bool

/-- Embeds `CacheService.getCacheKey`. -/
def cacheKey (videoId : String) : String := "video:analysis:" ++ videoId

/-- The raw `redis.get` call (may throw). -/
def redisGet (b : CacheBackend) (key : String) : Except String (Option AggregatedResult) :=
  if b.getFails then .error "backend error" else .ok (b.store key)

/-- The raw `redis.setex` call (may throw); returns the updated store. -/
def redisSetex (b : CacheBackend) (key : String) (value : AggregatedResult) :
    Except String (String → Option AggregatedResult) :=
  if b.setFails then .error "backend error"
  else .ok fun k => if k = key then some value else b.store k

/-- The raw `redis.del` call (may throw); returns the updated store. -/
def redisDel (b : CacheBackend) (key : String) :
    Except String (String → Option AggregatedResult) :=
  if b.delFails then .error "backend error"
  else .ok fun k => if k = key then none else b.store k

/-- Embeds `CacheService.getCachedResult`: `null` backend short-circuits to
`null`; a backend error is caught and turned into `null` (a miss). -/
def getCachedResult (b : CacheBackend) (videoId : String) :
    Except String (Option AggregatedResult) :=
  if b.connected = false then .ok none
  else
    match redisGet b (cacheKey videoId) with
    | .ok v => .ok v
    | .error _ => .ok none

/-- Embeds `CacheService.setCachedResult`: `null` backend and backend errors
both degrade to a no-op (the error is caught, not rethrown). -/
def setCachedResult (b : CacheBackend) (videoId : String) (result : AggregatedResult)
    (_ttl : ℕ) : Except String CacheBackend :=
  if b.connected = false then .ok b
  else
    match redisSetex b (cacheKey videoId) result with
    | .ok st => .ok { b with store := st }
    | .error _ => .ok b

/-- Embeds `CacheService.invalidateCache`: `null` backend and backend errors
both degrade to a no-op. -/
def invalidateCache (b : CacheBackend) (videoId : String) : Except String CacheBackend :=
  if b.connected = false then .ok b
  else
    match redisDel b (cacheKey videoId) with
    | .ok st => .ok { b with store := st }
    | .error _ => .ok b

/-- Embeds `CacheService.isCacheAvailable`. -/
def isCacheAvailable (b : CacheBackend) : Bool :=
  b.connected && b.ready

/-! ### AnalyzeService -/

/-- Abstract environment for one `AnalyzeService.analyzeVideo` call:
URL validation and video-id parsing results (`YoutubeUtil`), the cache
backend, the acquisition environment, the `fs.pathExists` / `fs.stat` answers
used by the in-orchestrator chunk verification, and the outcome of the
per-chunk worker pipeline (frames + inference, out of scope per the spec)
with its optional representative frame image. -/
structure AnalyzeEnv where
  validUrl : Bool
  videoId : Option String
  cache : CacheBackend
  cacheTtl : ℕ
  acq : AcquisitionEnv
  videoExists : VideoChunk → Bool
  audioExists : VideoChunk → Bool
  videoSize : VideoChunk → ℕ
  audioSize : VideoChunk → ℕ
  moodOf : VideoChunk → Except String (MoodAnalysisResult × Option String)

/-- Whether a chunk passes the orchestrator's artifact verification:
both paths exist and both files are non-empty. -/
def chunkArtifactsOk (env : AnalyzeEnv) (c : VideoChunk) : Bool :=
  env.videoExists c && env.audioExists c &&
    decide (env.videoSize c ≠ 0) && decide (env.audioSize c ≠ 0)

/-- The chunk-verification loop of `analyzeVideo` (lines 101-129): the first
chunk with a missing artifact or an empty file makes the whole loop throw;
otherwise every chunk is pushed onto `verifiedChunks`. -/
def verifyChunksLoop (env : AnalyzeEnv) : List VideoChunk → Except Err (List VideoChunk)
  | [] => .ok []
  | c :: rest =>
    if env.videoExists c = false ∨ env.audioExists c = false then
      .error (.chunkVerification c.index)
    else if env.videoSize c = 0 ∨ env.audioSize c = 0 then
      .error (.chunkVerification c.index)
    else (verifyChunksLoop env rest).map fun l => c :: l

/-- Embeds `ChunkProcessor.process` for one job: the worker pipeline outcome
is abstract (`env.moodOf`), the result envelope is built exactly as in the
source (`chunkIndex: chunk.index`, `startTime`, `endTime`, `moodResult`,
`frameImage`). -/
def processChunk (env : AnalyzeEnv) (c : VideoChunk) : Except String ChunkJobResult :=
  match env.moodOf c with
  | .error e => .error e
  | .ok (m, frame) => .ok ⟨c.index, (c.startTime : ℚ), (c.endTime : ℚ), m, frame⟩

/-- The `Promise.all(jobs.map(job => job.waitUntilFinished(...)))` step:
results come back in submission order; if a job fails, the whole wait fails
(modelled as the first failure in submission order). -/
def awaitAll (env : AnalyzeEnv) : List VideoChunk → Except String (List ChunkJobResult)
  | [] => .ok []
  | c :: rest =>
    match processChunk env c with
    | .error e => .error e
    | .ok r =>
      match awaitAll env rest with
      | .error e => .error e
      | .ok rs => .ok (r :: rs)

/-- Observable side effects of one `analyzeVideo` run: how many times
`downloadAndChunk` was entered, the chunks submitted as jobs, the argument of
each `aggregateResults` call, the attempted cache writes, and every path
handed to `TempFileUtil.cleanup`. -/
structure Trace where
  acquisitions : ℕ
  jobsSubmitted : List VideoChunk
  aggregationInputs : List (List ChunkJobResult)
  cacheWrites : List (String × AggregatedResult)
  cleanups : List String
  deriving DecidableEq

/-- The all-empty trace. -/
def emptyTrace : Trace := ⟨0, [], [], [], []⟩

/-- Result of one `analyzeVideo` run: outcome, cache state afterwards, and
the side-effect trace. -/
structure RunResult where
  outcome : Except Err AggregatedResult
  cacheAfter : CacheBackend
  trace : Trace

/-- Step 0 of `analyzeVideo`: the cache is consulted only when
`isCacheAvailable()` holds. -/
def cacheReadStep (env : AnalyzeEnv) (vid : String) :
    Except String (Option AggregatedResult) :=
  if isCacheAvailable env.cache then getCachedResult env.cache vid else .ok none

/-- Embeds `AnalyzeService.analyzeVideo`: URL validation, video-id parsing,
cache-aside read, download + chunking, chunk verification, job submission,
awaiting all jobs, aggregation, cache write, cleanup — with the `catch` block
running `cleanupChunks` (only when `chunks.length > 0`) before rethrowing. -/
def analyzeVideo (env : AnalyzeEnv) : RunResult :=
  if env.validUrl = false then ⟨.error (.invalidUrl "Invalid YouTube URL"), env.cache, emptyTrace⟩
  else
    match env.videoId with
    | none => ⟨.error (.invalidUrl "Invalid YouTube URL"), env.cache, emptyTrace⟩
    | some vid =>
      match cacheReadStep env vid with
      | .error e => ⟨.error (.cacheError e), env.cache, emptyTrace⟩
      | .ok (some r) => ⟨.ok r, env.cache, emptyTrace⟩
      | .ok none =>
        match downloadAndChunk env.acq with
        | (.error e, dlClean) =>
          ⟨.error e, env.cache, { emptyTrace with acquisitions := 1, cleanups := dlClean }⟩
        | (.ok chunks, dlClean) =>
          match verifyChunksLoop env chunks with
          | .error e =>
            ⟨.error e, env.cache,
              { acquisitions := 1, jobsSubmitted := [], aggregationInputs := [],
                cacheWrites := [], cleanups := dlClean ++ cleanupPaths chunks }⟩
          | .ok verified =>
            match awaitAll env verified with
            | .error e =>
              ⟨.error (.jobFailed e), env.cache,
                { acquisitions := 1, jobsSubmitted := verified, aggregationInputs := [],
                  cacheWrites := [], cleanups := dlClean ++ cleanupPaths chunks }⟩
            | .ok results =>
              let aggregated := aggregateResults results
              match
                (if isCacheAvailable env.cache then
                  match setCachedResult env.cache vid aggregated env.cacheTtl with
                  | .ok b2 => .ok (b2, [(vid, aggregated)])
                  | .error e2 => .error e2
                else .ok (env.cache, [])
                  : Except String (CacheBackend × List (String × AggregatedResult))) with
              | .error e2 =>
                ⟨.error (.cacheError e2), env.cache,
                  { acquisitions := 1, jobsSubmitted := verified,
                    aggregationInputs := [results], cacheWrites := [],
                    cleanups := dlClean ++ cleanupPaths chunks }⟩
              | .ok (cache2, writes) =>
                ⟨.ok aggregated, cache2,
                  { acquisitions := 1, jobsSubmitted := verified,
                    aggregationInputs := [results], cacheWrites := writes,
                    cleanups := dlClean ++ cleanupPaths chunks }⟩

/-! ### Decidability helper -/

instance {ε α : Type} [DecidableEq ε] [DecidableEq α] : DecidableEq (Except ε α) :=
  fun a b =>
    match a, b with
    | .error e1, .error e2 =>
      if h : e1 = e2 then .isTrue (by rw [h]) else .isFalse (by simp [h])
    | .ok v1, .ok v2 =>
      if h : v1 = v2 then .isTrue (by rw [h]) else .isFalse (by simp [h])
    | .error _, .ok _ => .isFalse (by simp)
    | .ok _, .error _ => .isFalse (by simp)

/-! ### Aggregation lemmas -/

/-- Score of a label in an association list of scores (0 when absent), reading
the first matching entry — the same entry a JavaScript property read sees. -/
def findScore : List (String × ℚ) → String → ℚ
  | [], _ => 0
  | q :: rest, m => if q.1 = m then q.2 else findScore rest m

/-- Specification-side accumulated score: the sum of the confidences of the
results whose primary label is `m`. -/
def confSum (l : List ChunkJobResult) (m : String) : ℚ :=
  ((l.filter fun c => c.moodResult.primary_mood == m).map
    fun c => c.moodResult.confidence).sum

theorem confSum_nil (m : String) : confSum [] m = 0 := rfl

theorem confSum_cons (c : ChunkJobResult) (t : List ChunkJobResult) (m : String) :
    confSum (c :: t) m =
      if c.moodResult.primary_mood = m then c.moodResult.confidence + confSum t m
      else confSum t m := by
  by_cases h : c.moodResult.primary_mood = m <;>
    simp [confSum, List.filter_cons, h]

theorem findScore_addScore (acc : List (String × ℚ)) (mood : String) (c : ℚ) (m : String) :
    findScore (addScore acc mood c) m =
      if m = mood then findScore acc m + c else findScore acc m := by
  induction acc with
  | nil =>
    by_cases h : m = mood
    · simp [addScore, findScore, h]
    · have h' : ¬mood = m := fun hc => h hc.symm
      simp [addScore, findScore, h, h']
  | cons a t ih =>
    by_cases h1 : a.1 = mood
    · by_cases h2 : a.1 = m
      · have hm : m = mood := h2.symm.trans h1
        simp [addScore, findScore, h1, h2, hm]
      · have hm : ¬m = mood := fun hc => h2 (h1.trans hc.symm)
        have hm' : ¬mood = m := fun hc => hm hc.symm
        simp [addScore, findScore, h1, h2, hm, hm']
    · by_cases h2 : a.1 = m
      · have hm : ¬m = mood := fun hc => h1 (h2.trans hc)
        simp [addScore, findScore, h1, h2, hm]
      · simp [addScore, findScore, h1, h2, ih]

theorem findScore_foldl_addScore (l : List ChunkJobResult) :
    ∀ (acc : List (String × ℚ)) (m : String),
      findScore
          (l.foldl
            (fun a chunk =>
              addScore a chunk.moodResult.primary_mood chunk.moodResult.confidence) acc) m
        = findScore acc m + confSum l m := by
  induction l with
  | nil => intro acc m; simp [confSum_nil]
  | cons c t ih =>
    intro acc m
    rw [List.foldl_cons, ih, findScore_addScore, confSum_cons]
    by_cases h : c.moodResult.primary_mood = m
    · simp [h, eq_comm]
      ring
    · have : ¬m = c.moodResult.primary_mood := fun hc => h hc.symm
      simp [h, this]

theorem findScore_moodScores (l : List ChunkJobResult) (m : String) :
    findScore (moodScores l) m = confSum l m := by
  have := findScore_foldl_addScore l [] m
  simpa [moodScores, findScore] using this

/-- Keys of a score association list, in insertion order. -/
def scoreKeys (scores : List (String × ℚ)) : List String :=
  scores.map Prod.fst

theorem scoreKeys_addScore (acc : List (String × ℚ)) (mood : String) (c : ℚ) :
    scoreKeys (addScore acc mood c) =
      if mood ∈ scoreKeys acc then scoreKeys acc else scoreKeys acc ++ [mood] := by
  induction acc with
  | nil => simp [addScore, scoreKeys]
  | cons a t ih =>
    by_cases h1 : a.1 = mood
    · simp [addScore, scoreKeys, h1]
    · have h1' : ¬mood = a.1 := fun hc => h1 hc.symm
      by_cases h2 : mood ∈ scoreKeys t
      · simp only [scoreKeys] at ih h2
        simp [addScore, scoreKeys, h1, h1', h2, ih]
      · simp only [scoreKeys] at ih h2
        simp [addScore, scoreKeys, h1, h1', h2, ih]

theorem nodup_scoreKeys_addScore (acc : List (String × ℚ)) (mood : String) (c : ℚ)
    (h : (scoreKeys acc).Nodup) : (scoreKeys (addScore acc mood c)).Nodup := by
  rw [scoreKeys_addScore]
  by_cases hm : mood ∈ scoreKeys acc
  · simpa [hm] using h
  · simp only [hm, if_false]
    rw [List.nodup_append]
    exact ⟨h, List.nodup_singleton mood, by simpa using hm⟩

theorem nodup_scoreKeys_moodScores (l : List ChunkJobResult) :
    (scoreKeys (moodScores l)).Nodup := by
  have main : ∀ (l' : List ChunkJobResult) (acc : List (String × ℚ)),
      (scoreKeys acc).Nodup →
      (scoreKeys
        (l'.foldl
          (fun a chunk =>
            addScore a chunk.moodResult.primary_mood chunk.moodResult.confidence) acc)).Nodup := by
    intro l'
    induction l' with
    | nil => intro acc h; simpa using h
    | cons c t ih =>
      intro acc h
      rw [List.foldl_cons]
      exact ih _ (nodup_scoreKeys_addScore _ _ _ h)
  exact main l [] (by simp [scoreKeys])

theorem findScore_of_mem (scores : List (String × ℚ)) (hnd : (scoreKeys scores).Nodup) :
    ∀ q ∈ scores, findScore scores q.1 = q.2 := by
  induction scores with
  | nil => intro q hq; simp at hq
  | cons a t ih =>
    intro q hq
    rw [scoreKeys, List.map_cons, List.nodup_cons] at hnd
    rcases List.mem_cons.mp hq with hq | hq
    · simp [findScore, hq]
    · have hne : ¬a.1 = q.1 := by
        intro hc
        exact hnd.1 (hc ▸ (List.mem_map_of_mem Prod.fst hq))
      simp only [findScore, hne, if_false]
      exact ih hnd.2 q hq

theorem mem_moodScores_eq_confSum (l : List ChunkJobResult) :
    ∀ q ∈ moodScores l, q.2 = confSum l q.1 := by
  intro q hq
  rw [← findScore_moodScores]
  exact (findScore_of_mem (moodScores l) (nodup_scoreKeys_moodScores l) q hq).symm

theorem foldl_pickMax_of_le (l : List (String × ℚ)) :
    ∀ b : String × ℚ, (∀ q ∈ l, q.2 ≤ b.2) → l.foldl pickMax b = b := by
  induction l with
  | nil => intro b _; rfl
  | cons a t ih =>
    intro b h
    have ha : ¬b.2 < a.2 := not_lt.mpr (h a (by simp))
    rw [List.foldl_cons]
    rw [pickMax, if_neg ha]
    exact ih b fun q hq => h q (by simp [hq])

theorem foldl_pickMax_of_exists (l : List (String × ℚ)) :
    ∀ b : String × ℚ, (∃ q ∈ l, b.2 < q.2) →
      ∃ l₁ p l₂, l = l₁ ++ p :: l₂ ∧ l.foldl pickMax b = p ∧ b.2 < p.2 ∧
        (∀ q ∈ l₁, q.2 < p.2) ∧ (∀ q ∈ l, q.2 ≤ p.2) := by
  induction l with
  | nil => intro b h; simp at h
  | cons a t ih =>
    intro b h
    by_cases ha : b.2 < a.2
    · by_cases ht : ∃ q ∈ t, a.2 < q.2
      · obtain ⟨t₁, p, t₂, hteq, hfold, hlt, hbefore, hall⟩ := ih a ht
        refine ⟨a :: t₁, p, t₂, by simp [hteq], ?_, lt_trans ha hlt, ?_, ?_⟩
        · rw [List.foldl_cons, pickMax, if_pos ha, hfold]
        · intro q hq
          rcases List.mem_cons.mp hq with hq | hq
          · exact hq ▸ hlt
          · exact hbefore q hq
        · intro q hq
          rcases List.mem_cons.mp hq with hq | hq
          · exact hq ▸ le_of_lt hlt
          · exact hall q hq
      · push_neg at ht
        refine ⟨[], a, t, rfl, ?_, ha, by simp, ?_⟩
        · rw [List.foldl_cons, pickMax, if_pos ha]
          exact foldl_pickMax_of_le t a ht
        · intro q hq
          rcases List.mem_cons.mp hq with hq | hq
          · exact hq ▸ le_refl _
          · exact ht q hq
    · have h' : ∃ q ∈ t, b.2 < q.2 := by
        obtain ⟨q, hq, hqlt⟩ := h
        rcases List.mem_cons.mp hq with hq | hq
        · exact absurd (hq ▸ hqlt) ha
        · exact ⟨q, hq, hqlt⟩
      obtain ⟨t₁, p, t₂, hteq, hfold, hlt, hbefore, hall⟩ := ih b h'
      refine ⟨a :: t₁, p, t₂, by simp [hteq], ?_, hlt, ?_, ?_⟩
      · rw [List.foldl_cons, pickMax, if_neg ha, hfold]
      · intro q hq
        rcases List.mem_cons.mp hq with hq | hq
        · exact hq ▸ lt_of_le_of_lt (not_lt.mp ha) hlt
        · exact hbefore q hq
      · intro q hq
        rcases List.mem_cons.mp hq with hq | hq
        · exact hq ▸ (le_of_not_lt ha).trans (le_of_lt hlt)
        · exact hall q hq

theorem countTransitions_le (l : List ChunkJobResult) :
    countTransitions l ≤ l.length - 1 := by
  induction l with
  | nil => simp [countTransitions]
  | cons a t ih =>
    cases t with
    | nil => simp [countTransitions]
    | cons b t2 =>
      rw [countTransitions]
      have hle : countTransitions (b :: t2) ≤ (b :: t2).length - 1 := ih
      by_cases h : a.moodResult.primary_mood = b.moodResult.primary_mood <;>
        simp [h, List.length_cons] at hle ⊢ <;> omega

theorem countTransitions_of_chain_eq (l : List ChunkJobResult)
    (h : l.Chain' fun a b => a.moodResult.primary_mood = b.moodResult.primary_mood) :
    countTransitions l = 0 := by
  induction l with
  | nil => rfl
  | cons a t ih =>
    cases t with
    | nil => rfl
    | cons b t2 =>
      rw [List.chain'_cons] at h
      rw [countTransitions, if_pos h.1, ih h.2]

theorem countTransitions_of_chain_ne (l : List ChunkJobResult)
    (h : l.Chain' fun a b => a.moodResult.primary_mood ≠ b.moodResult.primary_mood) :
    countTransitions l = l.length - 1 := by
  induction l with
  | nil => rfl
  | cons a t ih =>
    cases t with
    | nil => rfl
    | cons b t2 =>
      rw [List.chain'_cons] at h
      rw [countTransitions, if_neg h.1, ih h.2]
      simp [List.length_cons]
      omega

/-- C3: with 0 or 1 segment results the emotional variability is 0; with
`N ≥ 2` results it is the number of adjacent primary-label transitions divided
by `N - 1`; all-identical labels give 0, labels that change at every adjacent
pair give 1, and the value always lies in `[0, 1]`. -/
theorem C3_variability (l : List ChunkJobResult) :
    (l.length ≤ 1 → calculateEmotionalVariability l = 0) ∧
    (2 ≤ l.length →
      calculateEmotionalVariability l =
        (countTransitions l : ℚ) / ((l.length : ℚ) - 1)) ∧
    ((l.Chain' fun a b => a.moodResult.primary_mood = b.moodResult.primary_mood) →
      calculateEmotionalVariability l = 0) ∧
    (2 ≤ l.length →
      (l.Chain' fun a b => a.moodResult.primary_mood ≠ b.moodResult.primary_mood) →
      calculateEmotionalVariability l = 1) ∧
    0 ≤ calculateEmotionalVariability l ∧ calculateEmotionalVariability l ≤ 1 := by
  by_cases hlen : l.length ≤ 1
  · simp [calculateEmotionalVariability, hlen]
    omega
  · have h2 : 2 ≤ l.length := by omega
    have hxpos : (0 : ℚ) < (l.length : ℚ) - 1 := by
      have : (2 : ℚ) ≤ (l.length : ℚ) := by exact_mod_cast h2
      linarith
    have hvar : calculateEmotionalVariability l =
        (countTransitions l : ℚ) / ((l.length : ℚ) - 1) := by
      rw [calculateEmotionalVariability, if_neg hlen]
    have hcast : ((l.length - 1 : ℕ) : ℚ) = (l.length : ℚ) - 1 := by
      have h1 : 1 ≤ l.length := by omega
      push_cast [Nat.cast_sub h1]
      ring
    refine ⟨fun hc => absurd hc hlen, fun _ => hvar, ?_, ?_, ?_, ?_⟩
    · intro hchain
      rw [hvar, countTransitions_of_chain_eq l hchain]
      simp
    · intro _ hchain
      rw [hvar, countTransitions_of_chain_ne l hchain, hcast]
      exact div_self (ne_of_gt hxpos)
    · rw [hvar]
      exact div_nonneg (by positivity) (le_of_lt hxpos)
    · rw [hvar]
      rw [div_le_one hxpos, ← hcast]
      exact_mod_cast countTransitions_le l

/-- C2 (amended): whenever some accumulated score is strictly positive, the
overall label is the first label in score-iteration order whose accumulated
score is maximal, and each accumulated score is exactly the sum of the
confidences of the results carrying that primary label.  (Without the
positivity hypothesis the code returns the initial `'neutral'` instead — see
the counterexample.) -/
theorem C2_overallMood (results : List ChunkJobResult)
    (hpos : ∃ q ∈ moodScores results, 0 < q.2) :
    (∀ q ∈ moodScores results, q.2 = confSum results q.1) ∧
    ∃ l₁ p l₂, moodScores results = l₁ ++ p :: l₂ ∧
      calculateOverallMood results = p.1 ∧
      (∀ q ∈ moodScores results, q.2 ≤ p.2) ∧
      (∀ q ∈ l₁, q.2 < p.2) := by
  refine ⟨mem_moodScores_eq_confSum results, ?_⟩
  obtain ⟨l₁, p, l₂, heq, hfold, _, hbefore, hall⟩ :=
    foldl_pickMax_of_exists (moodScores results) ("neutral", 0) hpos
  exact ⟨l₁, p, l₂, heq, by rw [calculateOverallMood, hfold], hall, hbefore⟩

/-- The input of the spec's overall-label example:
`[(happy, 0.9), (sad, 0.9), (happy, 0.05)]`. -/
def tieExample : List ChunkJobResult :=
  [⟨0, 0, 15, mkMood "happy" (9 / 10), none⟩,
   ⟨1, 15, 30, mkMood "sad" (9 / 10), none⟩,
   ⟨2, 30, 45, mkMood "happy" (1 / 20), none⟩]

/-- Witness for `C2_overallMood` at the spec's own example, which also checks
the example's expected overall label `'happy'` (0.95 beats 0.9). -/
theorem C2_overallMood_witness :
    calculateOverallMood tieExample = "happy" ∧
    ((∀ q ∈ moodScores tieExample, q.2 = confSum tieExample q.1) ∧
      ∃ l₁ p l₂, moodScores tieExample = l₁ ++ p :: l₂ ∧
        calculateOverallMood tieExample = p.1 ∧
        (∀ q ∈ moodScores tieExample, q.2 ≤ p.2) ∧
        (∀ q ∈ l₁, q.2 < p.2)) := by
  have hscores : moodScores tieExample = [("happy", 9 / 10 + 1 / 20), ("sad", 9 / 10)] := by
    norm_num [tieExample, moodScores, addScore, mkMood]
  have hpos : ∃ q ∈ moodScores tieExample, 0 < q.2 := by
    rw [hscores]
    exact ⟨("happy", 9 / 10 + 1 / 20), by simp, by norm_num⟩
  refine ⟨?_, C2_overallMood tieExample hpos⟩
  norm_num [calculateOverallMood, hscores, pickMax]

/-- A single result with confidence 0: its label `'happy'` carries the maximal
accumulated score (0), yet the code returns `'neutral'`. -/
def zeroConfExample : List ChunkJobResult :=
  [⟨0, 0, 15, mkMood "happy" 0, none⟩]

/-- Counterexample to C2 as stated: for `[(happy, 0)]` the unique (hence
maximal) accumulated score belongs to `'happy'`, but the overall label is
`'neutral'`, because the selection loop starts from `maxScore = 0` and only
replaces on a strictly greater score. -/
theorem C2_counterexample :
    moodScores zeroConfExample = [("happy", 0)] ∧
    (∀ q ∈ moodScores zeroConfExample, q.2 ≤ ("happy", (0 : ℚ)).2) ∧
    ("happy", (0 : ℚ)) ∈ moodScores zeroConfExample ∧
    calculateOverallMood zeroConfExample ≠ "happy" := by
  have hscores : moodScores zeroConfExample = [("happy", 0)] := by
    norm_num [zeroConfExample, moodScores, addScore, mkMood]
  refine ⟨hscores, ?_, ?_, ?_⟩
  · rw [hscores]; intro q hq; simp at hq; simp [hq]
  · rw [hscores]; simp
  · norm_num [calculateOverallMood, hscores, pickMax]
    decide

/-- C10: aggregation is total; the empty input yields overall label
`'neutral'`, an empty timeline, and variability 0; and whenever no label
accumulates a strictly positive score the overall label is `'neutral'`, even
if `'neutral'` labels no input result. -/
theorem C10_neutralDefault (l : List ChunkJobResult) :
    aggregateResults [] =
      { overall_mood := "neutral", mood_timeline := [], emotional_variability := 0 } ∧
    ((∀ q ∈ moodScores l, q.2 ≤ 0) → (aggregateResults l).overall_mood = "neutral") := by
  constructor
  · rfl
  · intro h
    have : (moodScores l).foldl pickMax ("neutral", 0) = ("neutral", 0) :=
      foldl_pickMax_of_le (moodScores l) ("neutral", 0) h
    simp [aggregateResults, calculateOverallMood, this]

/-- Two zero-confidence results, neither labelled `'neutral'`. -/
def allZeroExample : List ChunkJobResult :=
  [⟨0, 0, 15, mkMood "happy" 0, none⟩, ⟨1, 15, 30, mkMood "sad" 0, none⟩]

/-- Witness for `C10_neutralDefault` on an input whose labels are all
non-neutral but whose confidences are all zero. -/
theorem C10_neutralDefault_witness :
    aggregateResults [] =
      { overall_mood := "neutral", mood_timeline := [], emotional_variability := 0 } ∧
    (aggregateResults allZeroExample).overall_mood = "neutral" := by
  have hscores : moodScores allZeroExample = [("happy", 0), ("sad", 0)] := by
    norm_num [allZeroExample, moodScores, addScore, mkMood]
    decide
  have hle : ∀ q ∈ moodScores allZeroExample, q.2 ≤ 0 := by
    rw [hscores]
    intro q hq
    rcases List.mem_cons.mp hq with hq | hq
    · simp [hq]
    · simp at hq; simp [hq]
  exact ⟨(C10_neutralDefault allZeroExample).1, (C10_neutralDefault allZeroExample).2 hle⟩

/-- An alternating two-entry input for the variability witness. -/
def altExample : List ChunkJobResult :=
  [⟨0, 0, 15, mkMood "happy" 1, none⟩, ⟨1, 15, 30, mkMood "sad" 1, none⟩]

/-- Witness for `C3_variability`: the alternating two-entry input has
variability 1, inside the bounds. -/
theorem C3_variability_witness :
    2 ≤ altExample.length ∧
    calculateEmotionalVariability altExample = 1 ∧
    0 ≤ calculateEmotionalVariability altExample ∧
    calculateEmotionalVariability altExample ≤ 1 := by
  have h := C3_variability altExample
  have hchain : altExample.Chain'
      fun a b => a.moodResult.primary_mood ≠ b.moodResult.primary_mood := by
    simp [altExample, List.chain'_cons, mkMood]
  exact ⟨by decide, h.2.2.2.1 (by decide) hchain, h.2.2.2.2⟩

/-! ### Orchestrator lemmas -/

@[simp]
theorem mkChunk_index (duration i : ℕ) : (mkChunk duration i).index = i := rfl

theorem verifyChunksLoop_ok_eq (env : AnalyzeEnv) :
    ∀ (l out : List VideoChunk), verifyChunksLoop env l = .ok out → out = l := by
  intro l
  induction l with
  | nil => intro out h; simpa [verifyChunksLoop] using h.symm
  | cons c rest ih =>
    intro out h
    rw [verifyChunksLoop] at h
    by_cases h1 : env.videoExists c = false ∨ env.audioExists c = false
    · rw [if_pos h1] at h; exact absurd h (by simp)
    · rw [if_neg h1] at h
      by_cases h2 : env.videoSize c = 0 ∨ env.audioSize c = 0
      · rw [if_pos h2] at h; exact absurd h (by simp)
      · rw [if_neg h2] at h
        rcases hres : verifyChunksLoop env rest with e | out2
        · rw [hres] at h; exact absurd h (by simp [Except.map])
        · rw [hres] at h
          simp [Except.map] at h
          rw [← h, ih out2 hres]

theorem verifyChunksLoop_error_of_mem (env : AnalyzeEnv) :
    ∀ (l : List VideoChunk) (c : VideoChunk), c ∈ l → chunkArtifactsOk env c = false →
      ∃ i, verifyChunksLoop env l = .error (.chunkVerification i) := by
  intro l
  induction l with
  | nil => intro c hc; simp at hc
  | cons a rest ih =>
    intro c hc hfail
    rw [verifyChunksLoop]
    by_cases h1 : env.videoExists a = false ∨ env.audioExists a = false
    · exact ⟨a.index, by rw [if_pos h1]⟩
    · rw [if_neg h1]
      by_cases h2 : env.videoSize a = 0 ∨ env.audioSize a = 0
      · exact ⟨a.index, by rw [if_pos h2]⟩
      · rw [if_neg h2]
        have hca : c ≠ a := by
          intro hce
          subst hce
          push_neg at h1 h2
          rw [chunkArtifactsOk] at hfail
          simp [Bool.not_eq_false] at h1
          simp [h1.1, h1.2, h2.1, h2.2] at hfail
        have hmem : c ∈ rest := by
          rcases List.mem_cons.mp hc with hce | hmem
          · exact absurd hce hca
          · exact hmem
        obtain ⟨i, herr⟩ := ih c hmem hfail
        exact ⟨i, by rw [herr]; rfl⟩

theorem spliceVerifyGo_sublist (verify : VideoChunk → Bool) :
    ∀ (fuel : ℕ) (l : List VideoChunk) (j : ℕ),
      List.Sublist (spliceVerifyGo verify fuel l j) l := by
  intro fuel
  induction fuel with
  | zero => intro l j; rw [spliceVerifyGo]
  | succ n ih =>
    intro l j
    rw [spliceVerifyGo]
    by_cases h : j < l.length
    · rw [dif_pos h]
      by_cases hv : verify (l.get ⟨j, h⟩)
      · rw [if_pos hv]; exact ih l (j + 1)
      · rw [if_neg hv]
        exact (ih (l.eraseIdx j) (j + 1)).trans (List.eraseIdx_sublist l j)
    · rw [dif_neg h]

theorem spliceVerify_sublist (verify : VideoChunk → Bool) (l : List VideoChunk) :
    List.Sublist (spliceVerify verify l) l :=
  spliceVerifyGo_sublist verify l.length l 0

theorem map_index_extractLoop (acq : AcquisitionEnv) (d n : ℕ) :
    (extractLoop acq d n).map VideoChunk.index = (List.range n).filter acq.extractOk := by
  have main : ∀ (l : List ℕ),
      (l.filterMap fun i =>
          if acq.extractOk i then some (mkChunk d i) else none).map VideoChunk.index
        = l.filter acq.extractOk := by
    intro l
    induction l with
    | nil => rfl
    | cons i t ih =>
      by_cases h : acq.extractOk i <;>
        simp [List.filterMap_cons, List.filter_cons, h, ih]
  exact main (List.range n)

theorem pairwise_index_producedChunks (acq : AcquisitionEnv) :
    ((producedChunks acq).map VideoChunk.index).Pairwise (· < ·) := by
  unfold producedChunks
  cases hd : durationOf acq with
  | none => simp
  | some d =>
    show ((extractLoop acq d (calculateChunkCount d)).map VideoChunk.index).Pairwise (· < ·)
    rw [map_index_extractLoop]
    exact (List.pairwise_lt_range _).sublist (List.filter_sublist _)

theorem pairwise_index_survivingChunks (acq : AcquisitionEnv) :
    ((survivingChunks acq).map VideoChunk.index).Pairwise (· < ·) :=
  (pairwise_index_producedChunks acq).sublist
    ((spliceVerify_sublist acq.postVerify (producedChunks acq)).map VideoChunk.index)

theorem downloadAndChunk_ok (acq : AcquisitionEnv) (chunks : List VideoChunk)
    (h : (downloadAndChunk acq).1 = .ok chunks) :
    chunks = survivingChunks acq ∧ chunks ≠ [] ∧
      (downloadAndChunk acq).2 = [videoFilePath] := by
  rw [downloadAndChunk] at h ⊢
  by_cases h1 : acq.validUrl = false
  · rw [if_pos h1] at h; exact absurd h (by simp)
  · rw [if_neg h1] at h ⊢
    by_cases h2 : acq.infoOk = false
    · rw [if_pos h2] at h; exact absurd h (by simp)
    · rw [if_neg h2] at h ⊢
      rcases hd : durationOf acq with _ | d
      · rw [hd] at h
        simp at h
      · rw [hd] at h
        dsimp only at h ⊢
        by_cases h3 : acq.downloadOk = false
        · rw [if_pos h3] at h; exact absurd h (by simp)
        · rw [if_neg h3] at h ⊢
          by_cases h4 : (extractLoop acq d (calculateChunkCount d)).length = 0
          · rw [if_pos h4] at h; exact absurd h (by simp)
          · rw [if_neg h4] at h ⊢
            by_cases h5 :
                (spliceVerify acq.postVerify
                  (extractLoop acq d (calculateChunkCount d))).length = 0
            · rw [if_pos h5] at h; exact absurd h (by simp)
            · rw [if_neg h5] at h ⊢
              simp at h
              have hsurv : survivingChunks acq
                  = spliceVerify acq.postVerify
                      (extractLoop acq d (calculateChunkCount d)) := by
                rw [survivingChunks, producedChunks, hd]
              refine ⟨by rw [← h, hsurv], ?_, rfl⟩
              rw [← h]
              intro hc
              rw [hc] at h5
              exact h5 rfl

theorem awaitAll_ok_length (env : AnalyzeEnv) :
    ∀ (jobs : List VideoChunk) (results : List ChunkJobResult),
      awaitAll env jobs = .ok results → results.length = jobs.length := by
  intro jobs
  induction jobs with
  | nil =>
    intro results h
    rw [awaitAll] at h
    simp at h
    simp [← h]
  | cons c rest ih =>
    intro results h
    rw [awaitAll] at h
    rcases hp : processChunk env c with e | r
    · rw [hp] at h; exact absurd h (by simp)
    · rw [hp] at h
      rcases ha : awaitAll env rest with e | rs
      · rw [ha] at h; exact absurd h (by simp)
      · rw [ha] at h
        simp at h
        rw [← h]
        simp [ih rs ha]

theorem awaitAll_ok_get (env : AnalyzeEnv) :
    ∀ (jobs : List VideoChunk) (results : List ChunkJobResult),
      awaitAll env jobs = .ok results →
      ∀ (i : ℕ) (h1 : i < jobs.length) (h2 : i < results.length),
        processChunk env (jobs.get ⟨i, h1⟩) = .ok (results.get ⟨i, h2⟩) := by
  intro jobs
  induction jobs with
  | nil => intro results h i h1 h2; simp at h1
  | cons c rest ih =>
    intro results h i h1 h2
    rw [awaitAll] at h
    rcases hp : processChunk env c with e | r
    · rw [hp] at h; exact absurd h (by simp)
    · rw [hp] at h
      rcases ha : awaitAll env rest with e | rs
      · rw [ha] at h; exact absurd h (by simp)
      · rw [ha] at h
        simp at h
        subst h
        cases i with
        | zero => simpa using hp
        | succ n =>
          have h1' : n < rest.length := by simpa using h1
          have h2' : n < rs.length := by simpa using h2
          simpa using ih rs ha n h1' h2'

theorem awaitAll_ok_map_index (env : AnalyzeEnv) :
    ∀ (jobs : List VideoChunk) (results : List ChunkJobResult),
      awaitAll env jobs = .ok results →
      results.map (fun r => r.chunkIndex) = jobs.map (fun c => c.index) := by
  intro jobs
  induction jobs with
  | nil =>
    intro results h
    rw [awaitAll] at h
    simp at h
    simp [← h]
  | cons c rest ih =>
    intro results h
    rw [awaitAll] at h
    rcases hp : processChunk env c with e | r
    · rw [hp] at h; exact absurd h (by simp)
    · rw [hp] at h
      rcases ha : awaitAll env rest with e | rs
      · rw [ha] at h; exact absurd h (by simp)
      · rw [ha] at h
        simp at h
        subst h
        have hr : r.chunkIndex = c.index := by
          rw [processChunk] at hp
          rcases hm : env.moodOf c with e | mf
          · rw [hm] at hp; exact absurd hp (by simp)
          · rw [hm] at hp
            simp at hp
            rw [← hp]
        simp [hr, ih rs ha]

theorem mem_cleanupPaths (chunks : List VideoChunk) (c : VideoChunk) (hc : c ∈ chunks) :
    c.videoPath ∈ cleanupPaths chunks ∧ c.audioPath ∈ cleanupPaths chunks :=
  ⟨List.mem_append_left _ (List.mem_flatMap.mpr ⟨c, hc, by simp⟩),
   List.mem_append_left _ (List.mem_flatMap.mpr ⟨c, hc, by simp⟩)⟩

theorem head_dirname_mem_cleanupPaths (chunks : List VideoChunk) (c0 : VideoChunk)
    (h : chunks.head? = some c0) : dirname c0.videoPath ∈ cleanupPaths chunks := by
  cases chunks with
  | nil => simp at h
  | cons a t =>
    simp at h
    subst h
    exact List.mem_append_right _ (by simp [cleanupPaths])

/-! ### Chunk geometry (C7) and cache best-effort behavior (C6) -/

/-- C7: for every positive integer duration `D` and the fixed segment length
15, the chunk count is `⌈D/15⌉`; chunk `i` spans `[15·i, min(15·i+15, D))`;
consecutive chunks are adjacent (`startOffset` of chunk `i+1` equals
`endOffset` of chunk `i`); and the last chunk's span is
`D - (count - 1)·15`, never exceeding 15. -/
theorem C7_chunkGeometry (D : ℕ) (hD : 0 < D) :
    ((calculateChunkCount D : ℤ) = ⌈(D : ℚ) / 15⌉) ∧
    (∀ i : ℕ, (mkChunk D i).startTime = 15 * i ∧
      (mkChunk D i).endTime = min (15 * i + 15) D) ∧
    (∀ i : ℕ, i + 1 < calculateChunkCount D →
      (mkChunk D (i + 1)).startTime = (mkChunk D i).endTime) ∧
    ((mkChunk D (calculateChunkCount D - 1)).endTime
        - (mkChunk D (calculateChunkCount D - 1)).startTime
      = D - (calculateChunkCount D - 1) * 15) ∧
    D - (calculateChunkCount D - 1) * 15 ≤ 15 := by
  have hk : calculateChunkCount D = (D + 14) / 15 := rfl
  have hk1 : 1 ≤ calculateChunkCount D := by rw [hk]; omega
  have hub : D ≤ 15 * calculateChunkCount D := by rw [hk]; omega
  have hlb : 15 * (calculateChunkCount D - 1) < D := by rw [hk]; omega
  refine ⟨?_, fun i => ⟨rfl, rfl⟩, ?_, ?_, ?_⟩
  · rw [eq_comm, Int.ceil_eq_iff]
    constructor
    · rw [lt_div_iff₀ (by norm_num : (0 : ℚ) < 15)]
      have hcast : ((15 * (calculateChunkCount D - 1) : ℕ) : ℚ) < ((D : ℕ) : ℚ) := by
        exact_mod_cast hlb
      push_cast [Nat.cast_sub hk1] at hcast
      push_cast
      linarith
    · rw [div_le_iff₀ (by norm_num : (0 : ℚ) < 15)]
      have hcast : ((D : ℕ) : ℚ) ≤ ((15 * calculateChunkCount D : ℕ) : ℚ) := by
        exact_mod_cast hub
      push_cast at hcast
      push_cast
      linarith
  · intro i hi
    simp only [mkChunk]
    omega
  · simp only [mkChunk]
    omega
  · omega

/-- Witness for `C7_chunkGeometry` at `D = 20` (two chunks, the second of
span 5). -/
theorem C7_chunkGeometry_witness :
    0 < 20 ∧ (mkChunk 20 (calculateChunkCount 20 - 1)).endTime
        - (mkChunk 20 (calculateChunkCount 20 - 1)).startTime
      = 20 - (calculateChunkCount 20 - 1) * 15 ∧
    20 - (calculateChunkCount 20 - 1) * 15 ≤ 15 := by
  have h := C7_chunkGeometry 20 (by decide)
  exact ⟨by decide, h.2.2.2.1, h.2.2.2.2⟩

/-- C6: every cache operation is total with respect to backend errors — a get
on a failing backend is an `Except.ok` miss (`none`), a set or delete on a
failing backend is an `Except.ok` no-op leaving the backend unchanged, and no
operation ever returns `Except.error`. -/
theorem C6_cacheBestEffort (b : CacheBackend) (id : String) (v : AggregatedResult)
    (ttl : ℕ) :
    (∃ r, getCachedResult b id = .ok r) ∧
    (b.getFails = true → getCachedResult b id = .ok none) ∧
    (∃ b2, setCachedResult b id v ttl = .ok b2) ∧
    (b.setFails = true → setCachedResult b id v ttl = .ok b) ∧
    (∃ b3, invalidateCache b id = .ok b3) ∧
    (b.delFails = true → invalidateCache b id = .ok b) := by
  refine ⟨?_, ?_, ?_, ?_, ?_, ?_⟩
  · by_cases hc : b.connected = false
    · exact ⟨none, by simp [getCachedResult, hc]⟩
    · by_cases hg : b.getFails
      · exact ⟨none, by simp [getCachedResult, hc, redisGet, hg]⟩
      · exact ⟨b.store (cacheKey id), by simp [getCachedResult, hc, redisGet, hg]⟩
  · intro hg
    by_cases hc : b.connected = false <;> simp [getCachedResult, hc, redisGet, hg]
  · by_cases hc : b.connected = false
    · exact ⟨b, by simp [setCachedResult, hc]⟩
    · by_cases hs : b.setFails
      · exact ⟨b, by simp [setCachedResult, hc, redisSetex, hs]⟩
      · exact ⟨{ b with store := fun k => if k = cacheKey id then some v else b.store k },
          by simp [setCachedResult, hc, redisSetex, hs]⟩
  · intro hs
    by_cases hc : b.connected = false <;> simp [setCachedResult, hc, redisSetex, hs]
  · by_cases hc : b.connected = false
    · exact ⟨b, by simp [invalidateCache, hc]⟩
    · by_cases hd : b.delFails
      · exact ⟨b, by simp [invalidateCache, hc, redisDel, hd]⟩
      · exact ⟨{ b with store := fun k => if k = cacheKey id then none else b.store k },
          by simp [invalidateCache, hc, redisDel, hd]⟩
  · intro hd
    by_cases hc : b.connected = false <;> simp [invalidateCache, hc, redisDel, hd]

/-- A connected backend whose every raw operation throws. -/
def failingBackend : CacheBackend :=
  { connected := true, ready := true, store := fun _ => none,
    getFails := true, setFails := true, delFails := true }

/-- The neutral empty result, used as a concrete cache value. -/
def neutralResult : AggregatedResult :=
  { overall_mood := "neutral", mood_timeline := [], emotional_variability := 0 }

/-- Witness for `C6_cacheBestEffort` on a backend whose every raw call
throws: the get degrades to a miss and set/delete to no-ops. -/
theorem C6_cacheBestEffort_witness :
    getCachedResult failingBackend "abc" = .ok none ∧
    setCachedResult failingBackend "abc" neutralResult 60 = .ok failingBackend ∧
    invalidateCache failingBackend "abc" = .ok failingBackend := by
  have h := C6_cacheBestEffort failingBackend "abc" neutralResult 60
  exact ⟨h.2.1 rfl, h.2.2.2.1 rfl, h.2.2.2.2.2 rfl⟩

/-! ### Orchestrator theorems -/

theorem cacheReadStep_hit (env : AnalyzeEnv) (vid : String) (r : AggregatedResult)
    (havail : isCacheAvailable env.cache = true)
    (hget : env.cache.getFails = false)
    (hhit : env.cache.store (cacheKey vid) = some r) :
    cacheReadStep env vid = .ok (some r) := by
  have hconn : env.cache.connected = true := by
    rw [isCacheAvailable, Bool.and_eq_true] at havail
    exact havail.1
  simp [cacheReadStep, havail, getCachedResult, hconn, redisGet, hget, hhit]

/-- C5: a reachable cache holding a value for the parsed video id makes
`analyzeVideo` return the cached value at once, with no acquisition, no job
submission, no aggregation, no cache write, no cleanup, and an unchanged
cache. -/
theorem C5_cacheHitShortCircuit (env : AnalyzeEnv) (vid : String) (r : AggregatedResult)
    (hv : env.validUrl = true) (hid : env.videoId = some vid)
    (havail : isCacheAvailable env.cache = true)
    (hget : env.cache.getFails = false)
    (hhit : env.cache.store (cacheKey vid) = some r) :
    (analyzeVideo env).outcome = .ok r ∧
    (analyzeVideo env).cacheAfter = env.cache ∧
    (analyzeVideo env).trace = emptyTrace := by
  have hread := cacheReadStep_hit env vid r havail hget hhit
  refine ⟨?_, ?_, ?_⟩ <;> simp [analyzeVideo, hv, hid, hread]

/-- A disconnected cache backend (cache disabled). -/
def offBackend : CacheBackend :=
  { connected := false, ready := false, store := fun _ => none,
    getFails := false, setFails := false, delFails := false }

/-- A connected, working cache backend holding a value for id `vid123`. -/
def hitBackend : CacheBackend :=
  { connected := true, ready := true,
    store := fun k => if k = cacheKey "vid123" then some neutralResult else none,
    getFails := false, setFails := false, delFails := false }

/-- Acquisition environment for a 30-second video whose two chunks extract
and verify fine. -/
def acqTwo : AcquisitionEnv :=
  { validUrl := true, infoOk := true, duration := some 30, downloadOk := true,
    extractOk := fun _ => true, postVerify := fun _ => true }

/-- Environment with a warm cache for the requested video. -/
def envHit : AnalyzeEnv :=
  { validUrl := true, videoId := some "vid123", cache := hitBackend, cacheTtl := 60,
    acq := acqTwo, videoExists := fun _ => true, audioExists := fun _ => true,
    videoSize := fun _ => 1, audioSize := fun _ => 1,
    moodOf := fun _ => .ok (mkMood "happy" 1, none) }

/-- Witness for `C5_cacheHitShortCircuit` on a warm cache. -/
theorem C5_cacheHitShortCircuit_witness :
    (analyzeVideo envHit).outcome = .ok neutralResult ∧
    (analyzeVideo envHit).cacheAfter = envHit.cache ∧
    (analyzeVideo envHit).trace = emptyTrace :=
  C5_cacheHitShortCircuit envHit "vid123" neutralResult rfl rfl rfl rfl
    (by simp [envHit, hitBackend])

/-- C4: when the run reaches extraction but zero chunks survive extraction
plus re-verification, `analyzeVideo` fails with the integrity error, submits
no job, aggregates nothing, writes nothing to the cache, and the only cleanup
performed is of the downloaded source video file. -/
theorem C4_integrityFailure (env : AnalyzeEnv) (vid : String) (d : ℕ)
    (hv : env.validUrl = true) (hid : env.videoId = some vid)
    (hmiss : cacheReadStep env vid = .ok none)
    (hau : env.acq.validUrl = true) (hinfo : env.acq.infoOk = true)
    (hdur : durationOf env.acq = some d) (hdl : env.acq.downloadOk = true)
    (hzero : survivingChunks env.acq = []) :
    (∃ msg, (analyzeVideo env).outcome = .error (.integrityError msg)) ∧
    (analyzeVideo env).trace.jobsSubmitted = [] ∧
    (analyzeVideo env).trace.aggregationInputs = [] ∧
    (analyzeVideo env).trace.cacheWrites = [] ∧
    (analyzeVideo env).trace.cleanups = [videoFilePath] := by
  have hsurv : spliceVerify env.acq.postVerify
      (extractLoop env.acq d (calculateChunkCount d)) = [] := by
    have heq : survivingChunks env.acq
        = spliceVerify env.acq.postVerify
            (extractLoop env.acq d (calculateChunkCount d)) := by
      rw [survivingChunks, producedChunks, hdur]
    rw [← heq, hzero]
  have hdc : ∃ msg, downloadAndChunk env.acq
      = (.error (.integrityError msg), [videoFilePath]) := by
    by_cases he : (extractLoop env.acq d (calculateChunkCount d)).length = 0
    · exact ⟨"Failed to extract any chunks from the video.",
        by simp [downloadAndChunk, hau, hinfo, hdur, hdl, he]⟩
    · exact ⟨"No valid chunks were extracted.",
        by simp [downloadAndChunk, hau, hinfo, hdur, hdl, he, hsurv]⟩
  obtain ⟨msg, hdc⟩ := hdc
  refine ⟨⟨msg, ?_⟩, ?_, ?_, ?_, ?_⟩ <;>
    simp [analyzeVideo, hv, hid, hmiss, hdc, emptyTrace]

/-- Acquisition environment in which every chunk extraction fails. -/
def acqNoChunks : AcquisitionEnv :=
  { validUrl := true, infoOk := true, duration := some 30, downloadOk := true,
    extractOk := fun _ => false, postVerify := fun _ => true }

/-- Environment whose run produces zero surviving chunks. -/
def envZero : AnalyzeEnv :=
  { validUrl := true, videoId := some "vid0", cache := offBackend, cacheTtl := 60,
    acq := acqNoChunks, videoExists := fun _ => true, audioExists := fun _ => true,
    videoSize := fun _ => 1, audioSize := fun _ => 1,
    moodOf := fun _ => .ok (mkMood "happy" 1, none) }

/-- Witness for `C4_integrityFailure` when every extraction fails. -/
theorem C4_integrityFailure_witness :
    (∃ msg, (analyzeVideo envZero).outcome = .error (.integrityError msg)) ∧
    (analyzeVideo envZero).trace.jobsSubmitted = [] ∧
    (analyzeVideo envZero).trace.aggregationInputs = [] ∧
    (analyzeVideo envZero).trace.cacheWrites = [] ∧
    (analyzeVideo envZero).trace.cleanups = [videoFilePath] :=
  C4_integrityFailure envZero "vid0" 30 rfl rfl (by decide) rfl rfl (by decide) rfl
    (by decide)

/-- Acquisition environment for a 75-second video: five chunks, all
extracting and verifying fine. -/
def acqFive : AcquisitionEnv :=
  { validUrl := true, infoOk := true, duration := some 75, downloadOk := true,
    extractOk := fun _ => true, postVerify := fun _ => true }

/-- Environment in which chunk index 2 fails the orchestrator's artifact
verification (its audio artifact is missing). -/
def envBadChunk2 : AnalyzeEnv :=
  { validUrl := true, videoId := some "vid1", cache := offBackend, cacheTtl := 60,
    acq := acqFive, videoExists := fun _ => true,
    audioExists := fun c => decide (c.index ≠ 2),
    videoSize := fun _ => 1, audioSize := fun _ => 1,
    moodOf := fun _ => .ok (mkMood "happy" 1, none) }

/-- Environment in which chunk index 2 fails at the extraction stage instead
(where the code does drop it and continue). -/
def envDrop2 : AnalyzeEnv :=
  { envBadChunk2 with
    acq := { acqFive with extractOk := fun i => decide (i ≠ 2) },
    audioExists := fun _ => true }

/-- Counterexample to C1 as stated: five segments are produced and segment
index 2 fails artifact verification, but instead of dropping it and
submitting 4 jobs the orchestrator submits 0 jobs and the run fails with the
chunk-verification error. -/
theorem C1_counterexample :
    ((downloadAndChunk envBadChunk2.acq).1.toOption.map (List.map VideoChunk.index))
        = some [0, 1, 2, 3, 4] ∧
    chunkArtifactsOk envBadChunk2 (mkChunk 75 2) = false ∧
    (analyzeVideo envBadChunk2).outcome = .error (.chunkVerification 2) ∧
    (analyzeVideo envBadChunk2).trace.jobsSubmitted.length = 0 ∧
    (analyzeVideo envBadChunk2).trace.jobsSubmitted.length ≠ 4 := by
  refine ⟨by decide, by decide, by decide, by decide, by decide⟩

/-- C1 (amended): a produced segment that fails the orchestrator's artifact
verification makes the whole run fail with a chunk-verification error and
zero submitted jobs; segments are dropped with the run continuing only at the
extraction stage — in the 5-segment scenario with index 2 failing extraction,
4 jobs are submitted and the timeline has 4 entries. -/
theorem C1_verificationAborts :
    (∀ (env : AnalyzeEnv) (vid : String) (chunks : List VideoChunk) (c : VideoChunk),
      env.validUrl = true → env.videoId = some vid →
      cacheReadStep env vid = .ok none →
      (downloadAndChunk env.acq).1 = .ok chunks →
      c ∈ chunks → chunkArtifactsOk env c = false →
      (∃ i, (analyzeVideo env).outcome = .error (.chunkVerification i)) ∧
        (analyzeVideo env).trace.jobsSubmitted = []) ∧
    ((analyzeVideo envDrop2).trace.jobsSubmitted.map VideoChunk.index = [0, 1, 3, 4] ∧
      ((analyzeVideo envDrop2).outcome.toOption.map fun a => a.mood_timeline.length)
        = some 4) := by
  constructor
  · intro env vid chunks c hv hid hmiss hdl hc hfail
    obtain ⟨i, herr⟩ := verifyChunksLoop_error_of_mem env chunks c hc hfail
    rcases hpair : downloadAndChunk env.acq with ⟨res, clean⟩
    rw [hpair] at hdl
    simp at hdl
    subst hdl
    constructor
    · exact ⟨i, by simp [analyzeVideo, hv, hid, hmiss, hpair, herr]⟩
    · simp [analyzeVideo, hv, hid, hmiss, hpair, herr]
  · exact ⟨by decide, by decide⟩

/-- Witness for the universal part of `C1_verificationAborts`, at the
environment of the counterexample. -/
theorem C1_verificationAborts_witness :
    (∃ i, (analyzeVideo envBadChunk2).outcome = .error (.chunkVerification i)) ∧
    (analyzeVideo envBadChunk2).trace.jobsSubmitted = [] :=
  C1_verificationAborts.1 envBadChunk2 "vid1"
    [mkChunk 75 0, mkChunk 75 1, mkChunk 75 2, mkChunk 75 3, mkChunk 75 4]
    (mkChunk 75 2) rfl rfl (by decide) (by decide) (by decide) (by decide)

theorem analyzeVideo_cleanups_after_ok (env : AnalyzeEnv) (vid : String)
    (chunks : List VideoChunk) (clean : List String)
    (hv : env.validUrl = true) (hid : env.videoId = some vid)
    (hmiss : cacheReadStep env vid = .ok none)
    (hpair : downloadAndChunk env.acq = (.ok chunks, clean)) :
    (analyzeVideo env).trace.cleanups = clean ++ cleanupPaths chunks := by
  rcases hvr : verifyChunksLoop env chunks with e2 | verified
  · simp [analyzeVideo, hv, hid, hmiss, hpair, hvr]
  · rcases hai : awaitAll env verified with e3 | results
    · simp [analyzeVideo, hv, hid, hmiss, hpair, hvr, hai]
    · simp only [analyzeVideo, hv, hid, hmiss, hpair, hvr, hai]
      simp [hv, hid, hmiss]
      split <;> simp

/-- C8: on any failure after chunking returned a non-empty chunk list, every
chunk's video and audio artifact and the chunks' parent directory are among
the paths handed to cleanup before the error is surfaced. -/
theorem C8_cleanupOnFailure (env : AnalyzeEnv) (vid : String)
    (chunks : List VideoChunk) (e : Err)
    (hv : env.validUrl = true) (hid : env.videoId = some vid)
    (hmiss : cacheReadStep env vid = .ok none)
    (hdl : (downloadAndChunk env.acq).1 = .ok chunks)
    (_herr : (analyzeVideo env).outcome = .error e) :
    chunks ≠ [] ∧
    (∀ c ∈ chunks,
      c.videoPath ∈ (analyzeVideo env).trace.cleanups ∧
      c.audioPath ∈ (analyzeVideo env).trace.cleanups) ∧
    (∀ c0, chunks.head? = some c0 →
      dirname c0.videoPath ∈ (analyzeVideo env).trace.cleanups) := by
  obtain ⟨_, hne, _⟩ := downloadAndChunk_ok env.acq chunks hdl
  rcases hpair : downloadAndChunk env.acq with ⟨res, clean⟩
  rw [hpair] at hdl
  simp at hdl
  subst hdl
  have hcl := analyzeVideo_cleanups_after_ok env vid chunks clean hv hid hmiss hpair
  refine ⟨hne, ?_, ?_⟩
  · intro c hcmem
    rw [hcl]
    exact ⟨List.mem_append_right _ (mem_cleanupPaths chunks c hcmem).1,
           List.mem_append_right _ (mem_cleanupPaths chunks c hcmem).2⟩
  · intro c0 hc0
    rw [hcl]
    exact List.mem_append_right _ (head_dirname_mem_cleanupPaths chunks c0 hc0)

/-- Environment whose two chunks extract and verify, but whose worker
pipeline fails on every chunk. -/
def envJobFail : AnalyzeEnv :=
  { validUrl := true, videoId := some "vid2", cache := offBackend, cacheTtl := 60,
    acq := acqTwo, videoExists := fun _ => true, audioExists := fun _ => true,
    videoSize := fun _ => 1, audioSize := fun _ => 1,
    moodOf := fun _ => .error "inference failed" }

/-- Witness for `C8_cleanupOnFailure` on a failed job run with two chunks. -/
theorem C8_cleanupOnFailure_witness :
    [mkChunk 30 0, mkChunk 30 1] ≠ ([] : List VideoChunk) ∧
    (∀ c ∈ [mkChunk 30 0, mkChunk 30 1],
      c.videoPath ∈ (analyzeVideo envJobFail).trace.cleanups ∧
      c.audioPath ∈ (analyzeVideo envJobFail).trace.cleanups) ∧
    (∀ c0, [mkChunk 30 0, mkChunk 30 1].head? = some c0 →
      dirname c0.videoPath ∈ (analyzeVideo envJobFail).trace.cleanups) :=
  C8_cleanupOnFailure envJobFail "vid2" [mkChunk 30 0, mkChunk 30 1]
    (.jobFailed "inference failed") rfl rfl (by decide) (by decide) (by decide)

theorem analyzeVideo_ok_path (env : AnalyzeEnv) (vid : String)
    (chunks : List VideoChunk) (clean : List String) (verified : List VideoChunk)
    (results2 : List ChunkJobResult)
    (hv : env.validUrl = true) (hid : env.videoId = some vid)
    (hmiss : cacheReadStep env vid = .ok none)
    (hpair : downloadAndChunk env.acq = (.ok chunks, clean))
    (hvr : verifyChunksLoop env chunks = .ok verified)
    (hai : awaitAll env verified = .ok results2) :
    (analyzeVideo env).trace.jobsSubmitted = verified ∧
    (analyzeVideo env).trace.aggregationInputs = [results2] := by
  simp only [analyzeVideo, hv, hid, hmiss, hpair, hvr, hai]
  constructor <;> · simp [hv, hid, hmiss]; split <;> simp

/-- C9: the result list handed to the Aggregator matches the submitted job
list position by position (`Promise.all` preserves submission order), so the
Aggregator receives per-segment results ordered by strictly ascending segment
index. -/
theorem C9_orderedResults (env : AnalyzeEnv) (results : List ChunkJobResult)
    (h : (analyzeVideo env).trace.aggregationInputs = [results]) :
    results.length = (analyzeVideo env).trace.jobsSubmitted.length ∧
    (∀ (i : ℕ) (h1 : i < (analyzeVideo env).trace.jobsSubmitted.length)
        (h2 : i < results.length),
      processChunk env ((analyzeVideo env).trace.jobsSubmitted.get ⟨i, h1⟩)
        = .ok (results.get ⟨i, h2⟩)) ∧
    results.map (fun r => r.chunkIndex)
      = (analyzeVideo env).trace.jobsSubmitted.map (fun c => c.index) ∧
    ((analyzeVideo env).trace.jobsSubmitted.map (fun c => c.index)).Pairwise (· < ·) := by
  by_cases hv : env.validUrl = false
  · simp [analyzeVideo, hv, emptyTrace] at h
  · rw [Bool.not_eq_false] at hv
    rcases hid : env.videoId with _ | vid
    · simp [analyzeVideo, hv, hid, emptyTrace] at h
    · rcases hcr : cacheReadStep env vid with ce | co
      · simp [analyzeVideo, hv, hid, hcr, emptyTrace] at h
      · rcases co with _ | r
        · rcases hpair : downloadAndChunk env.acq with ⟨res, clean⟩
          rcases res with e | chunks
          · simp [analyzeVideo, hv, hid, hcr, hpair, emptyTrace] at h
          · rcases hvr : verifyChunksLoop env chunks with e2 | verified
            · simp [analyzeVideo, hv, hid, hcr, hpair, hvr] at h
            · rcases hai : awaitAll env verified with e3 | results2
              · simp [analyzeVideo, hv, hid, hcr, hpair, hvr, hai] at h
              · obtain ⟨hjobs, hagg⟩ :=
                  analyzeVideo_ok_path env vid chunks clean verified results2
                    hv hid hcr hpair hvr hai
                rw [hagg] at h
                simp at h
                subst h
                have hveq : verified = chunks := verifyChunksLoop_ok_eq env chunks verified hvr
                obtain ⟨hch, _, _⟩ :=
                  downloadAndChunk_ok env.acq chunks (by rw [hpair])
                subst hjobs
                refine ⟨?_, ?_, ?_, ?_⟩
                · exact awaitAll_ok_length env _ results2 hai
                · intro i h1 h2
                  exact awaitAll_ok_get env _ results2 hai i h1 h2
                · exact awaitAll_ok_map_index env _ results2 hai
                · rw [hveq, hch]
                  exact pairwise_index_survivingChunks env.acq
        · simp [analyzeVideo, hv, hid, hcr, emptyTrace] at h

/-- Environment for a clean two-chunk run. -/
def envOkRun : AnalyzeEnv :=
  { envJobFail with moodOf := fun _ => .ok (mkMood "happy" 1, none) }

/-- The single aggregation input of the clean run. -/
def okRunResults : List ChunkJobResult :=
  match (analyzeVideo envOkRun).trace.aggregationInputs with
  | [r] => r
  | _ => []

/-- Witness for `C9_orderedResults` on the clean two-chunk run. -/
theorem C9_orderedResults_witness :
    okRunResults.length = (analyzeVideo envOkRun).trace.jobsSubmitted.length ∧
    (∀ (i : ℕ) (h1 : i < (analyzeVideo envOkRun).trace.jobsSubmitted.length)
        (h2 : i < okRunResults.length),
      processChunk envOkRun ((analyzeVideo envOkRun).trace.jobsSubmitted.get ⟨i, h1⟩)
        = .ok (okRunResults.get ⟨i, h2⟩)) ∧
    okRunResults.map (fun r => r.chunkIndex)
      = (analyzeVideo envOkRun).trace.jobsSubmitted.map (fun c => c.index) ∧
    ((analyzeVideo envOkRun).trace.jobsSubmitted.map (fun c => c.index)).Pairwise (· < ·) :=
  C9_orderedResults envOkRun okRunResults rfl

end YtMood
